import Mathlib

/-!
Shallow embedding of the classification-metrics core of the rust_metrics
crate (src/classification/{stat_scores,accuracy,precision_recall,f1,
jaccard,auroc}.rs and src/utils/general.rs), together with proofs about
the embedded operations.

Modelling conventions:
* Rust `f64` values that flow through these metrics are modelled as `ℚ`.
  All inputs are finite decimal probabilities and all arithmetic performed
  on them (sums, products, comparisons) is exact on such values, except
  for division by zero.  A division whose denominator is zero is modelled
  by `none` in the type `FQ := Option ℚ` (Rust produces `NaN` there: in
  every division reachable in this code a zero denominator forces a zero
  numerator, so the result is `0.0/0.0 = NaN`, never `±inf`).  `NaN`
  poisons subsequent arithmetic, which `fAdd`/`fMul`/`fDiv` mirror by
  propagating `none`.
* Rust `usize`/`u64` counters are modelled as `ℕ`; the counters only ever
  grow by small increments, far from any overflow, and the Rust code uses
  default (checked in debug, wrapping in release) arithmetic with values
  bounded by the number of samples seen.
* A Rust function that can panic (constructor asserts, slice indexing) is
  modelled with an `Option` result, `none` standing for the panic.
* `update(&mut self, ..) -> Result<(), MetricError>` is modelled as a
  function returning the final state paired with `Option MetricError`
  (`none` = `Ok(())`); the returned state records any mutations performed
  before an early `return Err(..)`.
-/

/-- Error enum from src/core.rs.  The `String`/`&'static str` payloads of
`IncompatibleInput` carry only diagnostic text and are dropped here. -/
inductive MetricError where
  | lengthMismatch (predictions targets : ℕ)
  | invalidClassIndex (classIdx num_classes : ℕ)
  | invalidLabelShape (total_labels num_labels : ℕ)
  | incompatibleInput
deriving DecidableEq

/-- `f64` results that may be `NaN`: `none` models `NaN`. -/
abbrev FQ := Option ℚ

/-- `f64` addition, `NaN`-propagating. -/
def fAdd (a b : FQ) : FQ :=
  match a, b with
  | some x, some y => some (x + y)
  | _, _ => none

/-- `f64` multiplication, `NaN`-propagating. -/
def fMul (a b : FQ) : FQ :=
  match a, b with
  | some x, some y => some (x * y)
  | _, _ => none

/-- `f64` division, `NaN`-propagating; a zero denominator gives `none`
(in all reachable uses the numerator is then also zero, so Rust computes
`0.0/0.0 = NaN`). -/
def fDiv (a b : FQ) : FQ :=
  match a, b with
  | some x, some y => if y = 0 then none else some (x / y)
  | _, _ => none

/-- `verify_range` from src/utils/general.rs: `(min..=max).contains(&input)`. -/
def verifyRange (input min max : ℚ) : Option MetricError :=
  if min ≤ input ∧ input ≤ max then none else some MetricError.incompatibleInput

/-- `verify_label` from src/utils/general.rs. -/
def verifyLabel (input num_classes : ℕ) : Option MetricError :=
  if input < num_classes then none else some MetricError.incompatibleInput

/-- `verify_binary_label` from src/utils/general.rs. -/
def verifyBinaryLabel (input : ℕ) : Option MetricError :=
  verifyLabel input 2

/-! ## BinaryStatScores (src/classification/stat_scores.rs) -/

structure BinaryStatScores where
  true_positive : ℕ
  false_positive : ℕ
  false_negative : ℕ
  true_negative : ℕ
  total : ℕ
  threshold : ℚ
deriving DecidableEq

namespace BinaryStatScores

/-- `BinaryStatScores::new`; the `verify_range(threshold, 0.0, 1.0).unwrap()`
panic is modelled by `none`. -/
def new (threshold : ℚ) : Option BinaryStatScores :=
  match verifyRange threshold 0 1 with
  | some _ => none
  | none =>
    some { true_positive := 0, false_positive := 0, false_negative := 0
           true_negative := 0, total := 0, threshold := threshold }

/-- One iteration of the update loop body after both verifications passed:
threshold the prediction, compare with the target, bump one counter and
`total`. -/
def applySample (s : BinaryStatScores) (prediction : ℚ) (target : ℕ) :
    BinaryStatScores :=
  let predicted : Bool := prediction > s.threshold
  let actual : Bool := target = 1
  let s :=
    match predicted, actual with
    | true, true => { s with true_positive := s.true_positive + 1 }
    | true, false => { s with false_positive := s.false_positive + 1 }
    | false, true => { s with false_negative := s.false_negative + 1 }
    | false, false => { s with true_negative := s.true_negative + 1 }
  { s with total := s.total + 1 }

/-- The per-sample loop of `BinaryStatScores::update`: each sample is
verified and then immediately applied, so an error on a later sample
leaves the effects of the earlier ones in place. -/
def updateLoop (s : BinaryStatScores) :
    List (ℚ × ℕ) → BinaryStatScores × Option MetricError
  | [] => (s, none)
  | (prediction, target) :: rest =>
    match verifyRange prediction 0 1 with
    | some e => (s, some e)
    | none =>
      match verifyBinaryLabel target with
      | some e => (s, some e)
      | none => updateLoop (s.applySample prediction target) rest

/-- `BinaryStatScores::update`. -/
def update (s : BinaryStatScores) (predictions : List ℚ) (targets : List ℕ) :
    BinaryStatScores × Option MetricError :=
  if predictions.length ≠ targets.length then
    (s, some (MetricError.lengthMismatch predictions.length targets.length))
  else
    updateLoop s (predictions.zip targets)

/-- `BinaryStatScores::reset`. -/
def reset (s : BinaryStatScores) : BinaryStatScores :=
  { s with true_positive := 0, false_positive := 0, false_negative := 0
           true_negative := 0, total := 0 }

end BinaryStatScores

/-! ## Derived binary metrics

`BinaryPrecision`, `BinaryRecall` (src/classification/precision_recall.rs),
`BinaryF1Score` (src/classification/f1.rs) and `BinaryJaccardIndex`
(src/classification/jaccard.rs) each own a `BinaryStatScores`; their
`update`/`reset` delegate to it, and `compute` reads it. -/

/-- `BinaryPrecision::compute`. -/
def binaryPrecisionCompute (s : BinaryStatScores) : Option FQ :=
  if s.total = 0 then none
  else
    some (fDiv (some (s.true_positive : ℚ))
      (some ((s.true_positive + s.false_positive : ℕ) : ℚ)))

/-- `BinaryRecall::compute`. -/
def binaryRecallCompute (s : BinaryStatScores) : Option FQ :=
  if s.total = 0 then none
  else
    some (fDiv (some (s.true_positive : ℚ))
      (some ((s.true_positive + s.false_negative : ℕ) : ℚ)))

/-- `BinaryF1Score::compute`. -/
def binaryF1Compute (s : BinaryStatScores) : Option FQ :=
  if s.total = 0 then none
  else
    let precisionValue := fDiv (some (s.true_positive : ℚ))
      (some ((s.true_positive + s.false_positive : ℕ) : ℚ))
    let recallValue := fDiv (some (s.true_positive : ℚ))
      (some ((s.true_positive + s.false_negative : ℕ) : ℚ))
    some (fDiv (fMul (fMul (some 2) precisionValue) recallValue) (fAdd precisionValue recallValue))

/-- `BinaryJaccardIndex::compute` (this one also guards the
`tp+fp+fn == 0` denominator with an explicit `None`). -/
def binaryJaccardCompute (s : BinaryStatScores) : Option FQ :=
  if s.total = 0 then none
  else
    let denom := s.true_positive + s.false_positive + s.false_negative
    if denom = 0 then none
    else some (fDiv (some (s.true_positive : ℚ)) (some (denom : ℚ)))

/-! ## BinaryAccuracy and MulticlassAccuracy (src/classification/accuracy.rs) -/

structure BinaryAccuracy where
  correct : ℕ
  total : ℕ
deriving DecidableEq

namespace BinaryAccuracy

/-- Per-sample loop of `BinaryAccuracy::update` (runs after `total` was
already increased by the whole batch length). -/
def updateLoop (s : BinaryAccuracy) :
    List (ℕ × ℕ) → BinaryAccuracy × Option MetricError
  | [] => (s, none)
  | (prediction, target) :: rest =>
    if prediction > 1 ∨ target > 1 then (s, some MetricError.incompatibleInput)
    else
      let s := if prediction = target then { s with correct := s.correct + 1 } else s
      updateLoop s rest

/-- `BinaryAccuracy::update`: note that `self.total += predictions.len()`
happens before any per-sample validation. -/
def update (s : BinaryAccuracy) (predictions targets : List ℕ) :
    BinaryAccuracy × Option MetricError :=
  if predictions.length ≠ targets.length then
    (s, some (MetricError.lengthMismatch predictions.length targets.length))
  else
    updateLoop { s with total := s.total + predictions.length }
      (predictions.zip targets)

/-- `BinaryAccuracy::reset`. -/
def reset (_ : BinaryAccuracy) : BinaryAccuracy :=
  { correct := 0, total := 0 }

/-- `BinaryAccuracy::compute`. -/
def compute (s : BinaryAccuracy) : Option FQ :=
  if s.total = 0 then none
  else some (fDiv (some (s.correct : ℚ)) (some (s.total : ℚ)))

end BinaryAccuracy

structure MulticlassAccuracy where
  num_classes : ℕ
  correct : ℕ
  total : ℕ
deriving DecidableEq

namespace MulticlassAccuracy

/-- Validation-and-count loop of `MulticlassAccuracy::update`; it touches
no accumulator state, only the local `batch_correct`. -/
def countLoop (num_classes : ℕ) (batch_correct : ℕ) :
    List (ℕ × ℕ) → ℕ × Option MetricError
  | [] => (batch_correct, none)
  | (prediction, target) :: rest =>
    if prediction ≥ num_classes then
      (batch_correct, some (MetricError.invalidClassIndex prediction num_classes))
    else if target ≥ num_classes then
      (batch_correct, some (MetricError.invalidClassIndex target num_classes))
    else
      countLoop num_classes
        (if prediction = target then batch_correct + 1 else batch_correct) rest

/-- `MulticlassAccuracy::update`: the whole batch is validated first; the
accumulator is only mutated after the loop finished without error. -/
def update (s : MulticlassAccuracy) (predictions targets : List ℕ) :
    MulticlassAccuracy × Option MetricError :=
  if predictions.length ≠ targets.length then
    (s, some (MetricError.lengthMismatch predictions.length targets.length))
  else
    match countLoop s.num_classes 0 (predictions.zip targets) with
    | (_, some e) => (s, some e)
    | (batch_correct, none) =>
      ({ s with total := s.total + predictions.length
                correct := s.correct + batch_correct }, none)

/-- `MulticlassAccuracy::reset`. -/
def reset (s : MulticlassAccuracy) : MulticlassAccuracy :=
  { s with correct := 0, total := 0 }

/-- `MulticlassAccuracy::compute`. -/
def compute (s : MulticlassAccuracy) : Option FQ :=
  if s.total = 0 then none
  else some (fDiv (some (s.correct : ℚ)) (some (s.total : ℚ)))

end MulticlassAccuracy

/-! ## MulticlassStatScores (src/classification/stat_scores.rs) -/

structure MulticlassStatScores where
  true_positive : List ℕ
  false_positive : List ℕ
  false_negative : List ℕ
  true_negative : List ℕ
  total_per_class : List ℕ
  total : ℕ
  num_classes : ℕ
deriving DecidableEq

namespace MulticlassStatScores

/-- `MulticlassStatScores::new`; the `assert!(num_classes >= 2)` panic is
modelled by `none`. -/
def new (num_classes : ℕ) : Option MulticlassStatScores :=
  if num_classes ≥ 2 then
    some { true_positive := List.replicate num_classes 0
           false_positive := List.replicate num_classes 0
           false_negative := List.replicate num_classes 0
           true_negative := List.replicate num_classes 0
           total_per_class := List.replicate num_classes 0
           total := 0, num_classes := num_classes }
  else none

/-- One comparison step of Rust `Iterator::max_by` with the comparator
`a.1.partial_cmp(b.1)`: `core::cmp::max_by(x, y, compare)` keeps the
second argument `y` unless `compare(x, y) == Greater`, so equal keys
resolve to the later element. -/
def maxByStep (best : ℕ × ℚ) (idx : ℕ) (v : ℚ) : ℕ × ℚ :=
  if best.2 > v then best else (idx, v)

/-- The fold underlying `Iterator::max_by` over the enumerated row,
starting from the first element. -/
def maxByFold (idx : ℕ) (best : ℕ × ℚ) : List ℚ → ℕ × ℚ
  | [] => best
  | v :: rest => maxByFold (idx + 1) (maxByStep best idx v) rest

/-- `prediction_idx` computed in `MulticlassStatScores::update`:
`prediction.iter().enumerate().max_by(..).map(|(i, _)| i)`.  The
`.expect("Vector is empty")` case does not arise because the row length
was checked to equal `num_classes >= 2`; an empty row is mapped to `0`
here (it is unreachable from `update`). -/
def predictionIdx : List ℚ → ℕ
  | [] => 0
  | v :: rest => (maxByFold 1 (0, v) rest).1

/-- Per-class verdict loop of `MulticlassStatScores::update` for one
sample: for each `class_idx` in `0..num_classes` exactly one of the four
counters is bumped, and `total_per_class[class_idx]` always.  The Rust
loop indexes each vector at `class_idx`; with vectors of length
`num_classes` that is exactly an index-wise map over `0..num_classes`. -/
def applySample (s : MulticlassStatScores) (row : List ℚ) (target : ℕ) :
    MulticlassStatScores :=
  let prediction_idx := predictionIdx row
  { s with
    true_positive := List.zipWith
      (fun k v => if k = target ∧ k = prediction_idx then v + 1 else v)
      (List.range s.num_classes) s.true_positive
    false_negative := List.zipWith
      (fun k v => if k = target ∧ k ≠ prediction_idx then v + 1 else v)
      (List.range s.num_classes) s.false_negative
    false_positive := List.zipWith
      (fun k v => if k ≠ target ∧ k = prediction_idx then v + 1 else v)
      (List.range s.num_classes) s.false_positive
    true_negative := List.zipWith
      (fun k v => if k ≠ target ∧ k ≠ prediction_idx then v + 1 else v)
      (List.range s.num_classes) s.true_negative
    total_per_class := List.zipWith (fun _ v => v + 1)
      (List.range s.num_classes) s.total_per_class
    total := s.total + 1 }

/-- Per-sample loop of `MulticlassStatScores::update`: validation is
interleaved with mutation, sample by sample. -/
def updateLoop (s : MulticlassStatScores) :
    List (List ℚ × ℕ) → MulticlassStatScores × Option MetricError
  | [] => (s, none)
  | (row, target) :: rest =>
    match verifyLabel target s.num_classes with
    | some e => (s, some e)
    | none =>
      if row.length ≠ s.num_classes then (s, some MetricError.incompatibleInput)
      else updateLoop (s.applySample row target) rest

/-- `MulticlassStatScores::update`. -/
def update (s : MulticlassStatScores) (predictions : List (List ℚ))
    (targets : List ℕ) : MulticlassStatScores × Option MetricError :=
  if predictions.length ≠ targets.length then
    (s, some (MetricError.lengthMismatch predictions.length targets.length))
  else
    updateLoop s (predictions.zip targets)

end MulticlassStatScores

/-! ## Multiclass Macro-averaged computes

`MulticlassPrecision::compute` (src/classification/precision_recall.rs)
and `MulticlassF1Score::compute` (src/classification/f1.rs) run, in their
`AverageMethod::Macro` arm, the same guarded accumulation loop over
per-class (numerator, denominator) pairs: skip a class when its
denominator is zero, otherwise add `num/denom` and count it.
`MulticlassJaccardIndex::compute` (src/classification/jaccard.rs) has no
such guard. -/

/-- The Macro accumulation loop shared (textually duplicated) by the
precision and F1 `AverageMethod::Macro` arms: `sum`/`count` fold over
per-class `(numerator, denominator)` pairs with a `denom > 0` guard. -/
def guardedMeanLoop : List (ℕ × ℕ) → ℚ → ℕ → ℚ × ℕ
  | [], sum, count => (sum, count)
  | (num, den) :: rest, sum, count =>
    if den > 0 then guardedMeanLoop rest (sum + (num : ℚ) / (den : ℚ)) (count + 1)
    else guardedMeanLoop rest sum count

/-- Per-class `(numerator, denominator)` pairs for precision:
`(tp[i], tp[i] + fp[i])`. -/
def precisionPairs (s : MulticlassStatScores) : List (ℕ × ℕ) :=
  (s.true_positive.zip s.false_positive).map (fun x => (x.1, x.1 + x.2))

/-- `MulticlassPrecision::compute`, `AverageMethod::Macro` arm. -/
def mcPrecisionCompute (s : MulticlassStatScores) : Option FQ :=
  if s.total = 0 then none
  else
    let sc := guardedMeanLoop (precisionPairs s) 0 0
    if sc.2 = 0 then none else some (some (sc.1 / (sc.2 : ℚ)))

/-- Per-class `(numerator, denominator)` pairs for F1:
`(2*tp[i], 2*tp[i] + fp[i] + fn[i])`. -/
def f1Pairs (s : MulticlassStatScores) : List (ℕ × ℕ) :=
  (s.true_positive.zip (s.false_positive.zip s.false_negative)).map
    (fun x => (2 * x.1, 2 * x.1 + x.2.1 + x.2.2))

/-- `MulticlassF1Score::compute`, `AverageMethod::Macro` arm. -/
def mcF1Compute (s : MulticlassStatScores) : Option FQ :=
  if s.total = 0 then none
  else
    let sc := guardedMeanLoop (f1Pairs s) 0 0
    if sc.2 = 0 then none else some (some (sc.1 / (sc.2 : ℚ)))

/-- The unguarded Macro sum of `MulticlassJaccardIndex::compute`:
`jaccard_sum += tp[class] / (tp[class]+fp[class]+fn[class])` for every
class, with no zero-denominator guard (a zero denominator, only possible
with a zero numerator, makes the Rust sum `NaN`, modelled by `none`). -/
def jaccardSumLoop : List (ℕ × ℕ × ℕ) → FQ → FQ
  | [], acc => acc
  | (tp, fp, fn) :: rest, acc =>
    jaccardSumLoop rest (fAdd acc (fDiv (some (tp : ℚ)) (some ((tp + fp + fn : ℕ) : ℚ))))

/-- Per-class `(tp, fp, fn)` triples for the Jaccard loop. -/
def jaccardTriples (s : MulticlassStatScores) : List (ℕ × ℕ × ℕ) :=
  s.true_positive.zip (s.false_positive.zip s.false_negative)

/-- `MulticlassJaccardIndex::compute`, `AverageMethod::Macro` arm: the sum
over all classes is divided by `num_classes`, never by a count of defined
classes. -/
def mcJaccardCompute (s : MulticlassStatScores) : Option FQ :=
  if s.total = 0 then none
  else some (fDiv (jaccardSumLoop (jaccardTriples s) (some 0))
    (some (s.num_classes : ℚ)))

/-- Modelled from the spec (section 4.4 Macro averaging), for comparison
with the code: compute the per-class ratio only for classes whose
denominator is non-zero, and take the arithmetic mean over exactly those
defined classes; `none` when no class is defined. -/
def specMacroMean (pairs : List (ℕ × ℕ)) : Option ℚ :=
  let defined := pairs.filter (fun x => x.2 ≠ 0)
  if defined.length = 0 then none
  else some ((defined.map (fun x => (x.1 : ℚ) / (x.2 : ℚ))).sum / (defined.length : ℚ))

/-! ## BinaryAuroc (src/classification/auroc.rs) -/

/-- `BinaryAurocMode` enum: exact sample list or two histograms. -/
inductive AurocMode where
  | exact (samples : List (ℚ × Bool))
  | binned (bins : ℕ) (pos_hist neg_hist : List ℕ)
deriving DecidableEq

namespace BinaryAuroc

/-- `f64::round`: round half away from zero, as an integer. -/
def roundRust (q : ℚ) : ℤ :=
  if 0 ≤ q then ⌊q + 1/2⌋ else -⌊-q + 1/2⌋

/-- Bucket index of the binned update:
`((prediction * max_bin_idx).round()) as usize` with
`max_bin_idx = (bins - 1) as f64` (an `as usize` cast of a negative float
saturates to 0, matching `Int.toNat`). -/
def binIndex (prediction : ℚ) (bins : ℕ) : ℕ :=
  (roundRust (prediction * ((bins - 1 : ℕ) : ℚ))).toNat

/-- `BinaryAuroc::new`: `bins == 0` is exact mode, `bins == 1` panics
(modelled by `none`), `bins >= 2` is binned mode with two all-zero
histograms of length `bins`. -/
def new (bins : ℕ) : Option AurocMode :=
  match bins with
  | 0 => some (AurocMode.exact [])
  | 1 => none
  | _ => some (AurocMode.binned bins (List.replicate bins 0) (List.replicate bins 0))

/-- Exact-mode per-sample loop of `BinaryAuroc::update`: verify and push. -/
def exactLoop (samples : List (ℚ × Bool)) :
    List (ℚ × ℕ) → List (ℚ × Bool) × Option MetricError
  | [] => (samples, none)
  | (prediction, target) :: rest =>
    match verifyRange prediction 0 1 with
    | some e => (samples, some e)
    | none =>
      match verifyBinaryLabel target with
      | some e => (samples, some e)
      | none => exactLoop (samples ++ [(prediction, decide (target = 1))]) rest

/-- Binned-mode per-sample loop of `BinaryAuroc::update`: verify, bucket,
and increment `pos_hist[bin_index]` or `neg_hist[bin_index]`.  An
out-of-bounds `bin_index` panics in Rust, modelled by the outer `none`. -/
def binnedLoop (bins : ℕ) (pos_hist neg_hist : List ℕ) :
    List (ℚ × ℕ) → Option ((List ℕ × List ℕ) × Option MetricError)
  | [] => some ((pos_hist, neg_hist), none)
  | (prediction, target) :: rest =>
    match verifyRange prediction 0 1 with
    | some e => some ((pos_hist, neg_hist), some e)
    | none =>
      match verifyBinaryLabel target with
      | some e => some ((pos_hist, neg_hist), some e)
      | none =>
        let bin_index := binIndex prediction bins
        if target = 1 then
          if h : bin_index < pos_hist.length then
            binnedLoop bins (pos_hist.set bin_index (pos_hist.get ⟨bin_index, h⟩ + 1))
              neg_hist rest
          else none
        else
          if h : bin_index < neg_hist.length then
            binnedLoop bins pos_hist
              (neg_hist.set bin_index (neg_hist.get ⟨bin_index, h⟩ + 1)) rest
          else none

/-- `BinaryAuroc::update`; the outer `none` models an index-out-of-bounds
panic in the binned arm (shown unreachable for in-range predictions). -/
def update (m : AurocMode) (predictions : List ℚ) (targets : List ℕ) :
    Option (AurocMode × Option MetricError) :=
  if predictions.length ≠ targets.length then
    some (m, some (MetricError.lengthMismatch predictions.length targets.length))
  else
    match m with
    | AurocMode.exact samples =>
      let (samples, e) := exactLoop samples (predictions.zip targets)
      some (AurocMode.exact samples, e)
    | AurocMode.binned bins pos_hist neg_hist =>
      match binnedLoop bins pos_hist neg_hist (predictions.zip targets) with
      | none => none
      | some ((pos_hist, neg_hist), e) =>
        some (AurocMode.binned bins pos_hist neg_hist, e)

/-- `BinaryAuroc::reset`: clear the sample list, or zero both histograms
in place (their lengths are kept). -/
def reset (m : AurocMode) : AurocMode :=
  match m with
  | AurocMode.exact _ => AurocMode.exact []
  | AurocMode.binned bins pos_hist neg_hist =>
    AurocMode.binned bins (pos_hist.map (fun _ => 0)) (neg_hist.map (fun _ => 0))

/-- Insertion step for `sorted.sort_by(|a, b| b.0.partial_cmp(&a.0)...)`:
descending order by score. -/
def insertDesc (x : ℚ × Bool) : List (ℚ × Bool) → List (ℚ × Bool)
  | [] => [x]
  | y :: ys => if x.1 > y.1 then x :: y :: ys else y :: insertDesc x ys

/-- Descending (by score) stable sort of the sample list. -/
def sortDesc : List (ℚ × Bool) → List (ℚ × Bool)
  | [] => []
  | x :: xs => insertDesc x (sortDesc xs)

/-- The exact-mode sweep (`while idx < sorted.len()` with the inner
equal-score grouping loop), written with explicit fuel; `fuel` is
instantiated with the list length, which bounds the number of groups. -/
def sweepLoop : ℕ → List (ℚ × Bool) → ℚ → ℚ → ℚ → ℚ
  | _, [], _, _, auc => auc
  | 0, _ :: _, _, _, auc => auc
  | fuel + 1, (score, flag) :: rest, tp, fp, auc =>
    let group := ((score, flag) :: rest).takeWhile (fun x => x.1 = score)
    let remaining := ((score, flag) :: rest).dropWhile (fun x => x.1 = score)
    let group_pos : ℚ := ((group.filter (fun x => x.2)).length : ℚ)
    let group_neg : ℚ := (group.length : ℚ) - group_pos
    let tp2 := tp + group_pos
    let fp2 := fp + group_neg
    sweepLoop fuel remaining tp2 fp2 (auc + (fp2 - fp) * (tp2 + tp) / 2)

/-- `BinaryAuroc::compute`.  Exact arm: `None` on an empty sample list or
when either class is absent, otherwise trapezoidal area over the
descending sort divided by `total_pos * total_neg`.  Binned arm: `None`
only when BOTH histograms are all zero; otherwise the bucket sweep from
the highest bucket down, divided by `total_pos * total_neg` (which is
`0/0 = NaN`, i.e. `some none`, when exactly one class is absent). -/
def compute (m : AurocMode) : Option FQ :=
  match m with
  | AurocMode.exact samples =>
    if samples.isEmpty then none
    else
      let sorted := sortDesc samples
      let total_pos := (sorted.filter (fun x => x.2)).length
      let total_neg := sorted.length - total_pos
      if total_pos = 0 ∨ total_neg = 0 then none
      else
        some (fDiv (some (sweepLoop sorted.length sorted 0 0 0))
          (some ((total_pos : ℚ) * (total_neg : ℚ))))
  | AurocMode.binned _ pos_hist neg_hist =>
    let total_pos := pos_hist.sum
    let total_neg := neg_hist.sum
    if total_pos = 0 ∧ total_neg = 0 then none
    else
      let step := fun (acc : ℚ × ℚ × ℚ) (pn : ℕ × ℕ) =>
        let tp2 := acc.1 + (pn.1 : ℚ)
        let fp2 := acc.2.1 + (pn.2 : ℚ)
        (tp2, fp2, acc.2.2 + (fp2 - acc.2.1) * (tp2 + acc.1) / 2)
      let swept := ((pos_hist.zip neg_hist).reverse).foldl step (0, 0, 0)
      some (fDiv (some swept.2.2) (some ((total_pos : ℚ) * (total_neg : ℚ))))

end BinaryAuroc

/-! ## Concrete states and reachability used by the claims -/

/-- The freshly constructed `BinaryStatScores::new(0.5)` state. -/
def bssFresh : BinaryStatScores :=
  { true_positive := 0, false_positive := 0, false_negative := 0
    true_negative := 0, total := 0, threshold := 1/2 }

/-- State after the spec scenario batch: predictions
`[0.8, 0.6, 0.3, 0.1]`, targets `[1, 0, 1, 0]`, threshold `0.5`. -/
def c5State : BinaryStatScores :=
  (BinaryStatScores.update bssFresh [4/5, 3/5, 3/10, 1/10] [1, 0, 1, 0]).1

/-- The freshly constructed `MulticlassStatScores::new(2)` state. -/
def mssFresh : MulticlassStatScores :=
  { true_positive := [0, 0], false_positive := [0, 0], false_negative := [0, 0]
    true_negative := [0, 0], total_per_class := [0, 0], total := 0
    num_classes := 2 }

/-- State after one two-class sample whose prediction row is the tie
`[0.5, 0.5]` with target `0`. -/
def c2State : MulticlassStatScores :=
  (MulticlassStatScores.update mssFresh [[1/2, 1/2]] [0]).1

/-- State after one two-class sample predicted and labelled as class `0`:
class `1` then has `tp+fp+fn = 0`. -/
def c4State : MulticlassStatScores :=
  (MulticlassStatScores.update mssFresh [[9/10, 1/10]] [0]).1

/-- The per-class `(numerator, denominator)` pairs of the Jaccard index,
`(tp, tp+fp+fn)`, as the spec-side exclusion mean consumes them. -/
def jaccardPairs (s : MulticlassStatScores) : List (ℕ × ℕ) :=
  (jaccardTriples s).map (fun t => (t.1, t.1 + t.2.1 + t.2.2))

/-- States of `BinaryStatScores` reachable from construction through
successful updates and resets, in any interleaving. -/
inductive BssReachable : BinaryStatScores → Prop where
  | new : ∀ threshold s, BinaryStatScores.new threshold = some s → BssReachable s
  | update : ∀ s predictions targets s2, BssReachable s →
      BinaryStatScores.update s predictions targets = (s2, none) → BssReachable s2
  | reset : ∀ s, BssReachable s → BssReachable s.reset

/-- The state reached from `bssFresh` by the successful one-sample update
with prediction `0.8` and target `1`. -/
def c6Snapshot : BinaryStatScores :=
  { true_positive := 1, false_positive := 0, false_negative := 0
    true_negative := 0, total := 1, threshold := 1/2 }

/-! ## Helper lemmas -/

/-- Summing a list mapped to the constant `0` gives `0`. -/
theorem sum_map_zero (l : List ℕ) : (l.map (fun _ => 0)).sum = 0 := by
  induction l with
  | nil => rfl
  | cons x xs ih => simp [ih]

/-- `NaN` absorbs addition on the right. -/
theorem fAdd_none_right (a : FQ) : fAdd a none = none := by
  cases a <;> rfl

/-- `NaN` is absorbed by division on the left. -/
theorem fDiv_none_left (b : FQ) : fDiv none b = none := by
  cases b <;> rfl

/-- Applying one sample bumps `total` by one and exactly one counter by
one, preserving the counter sum. -/
theorem applySample_invariant (s : BinaryStatScores) (p : ℚ) (t : ℕ)
    (h : s.true_positive + s.false_positive + s.false_negative +
      s.true_negative = s.total) :
    (s.applySample p t).true_positive + (s.applySample p t).false_positive +
      (s.applySample p t).false_negative + (s.applySample p t).true_negative =
      (s.applySample p t).total := by
  cases hp : decide (p > s.threshold) <;> cases ht : decide (t = 1) <;>
    simp [BinaryStatScores.applySample, hp, ht] <;> omega

/-- The update loop preserves the counter-sum invariant, whether it ends
in success or in a mid-batch validation error. -/
theorem updateLoop_invariant (pairs : List (ℚ × ℕ)) :
    ∀ s : BinaryStatScores,
      s.true_positive + s.false_positive + s.false_negative +
        s.true_negative = s.total →
      (BinaryStatScores.updateLoop s pairs).1.true_positive +
        (BinaryStatScores.updateLoop s pairs).1.false_positive +
        (BinaryStatScores.updateLoop s pairs).1.false_negative +
        (BinaryStatScores.updateLoop s pairs).1.true_negative =
        (BinaryStatScores.updateLoop s pairs).1.total := by
  induction pairs with
  | nil => intro s h; simpa [BinaryStatScores.updateLoop] using h
  | cons pt rest ih =>
    intro s h
    obtain ⟨p, t⟩ := pt
    unfold BinaryStatScores.updateLoop
    cases hv : verifyRange p 0 1 with
    | some e => simpa using h
    | none =>
      cases hb : verifyBinaryLabel t with
      | some e => simpa using h
      | none => exact ih _ (applySample_invariant s p t h)

/-- Full characterisation of the `max_by` fold: the result dominates the
initial candidate and every element, it is either the initial candidate
or an element at its reported index, and every element strictly after the
reported index is strictly below the result (ties resolve to the LAST
maximal element). -/
theorem maxByFold_spec (vs : List ℚ) : ∀ (i : ℕ) (best : ℕ × ℚ),
    best.2 ≤ (MulticlassStatScores.maxByFold i best vs).2 ∧
    (∀ k, k < vs.length →
      vs.getD k 0 ≤ (MulticlassStatScores.maxByFold i best vs).2) ∧
    (MulticlassStatScores.maxByFold i best vs = best ∨
      ∃ k, k < vs.length ∧ (MulticlassStatScores.maxByFold i best vs).1 = i + k ∧
        (MulticlassStatScores.maxByFold i best vs).2 = vs.getD k 0) ∧
    (∀ k, k < vs.length → i + k > (MulticlassStatScores.maxByFold i best vs).1 →
      vs.getD k 0 < (MulticlassStatScores.maxByFold i best vs).2) := by
  induction vs with
  | nil =>
    intro i best
    refine ⟨le_refl _, ?_, Or.inl rfl, ?_⟩ <;> intro k hk <;> simp at hk
  | cons v rest ih =>
    intro i best
    obtain ⟨ih1, ih2, ih3, ih4⟩ := ih (i + 1) (MulticlassStatScores.maxByStep best i v)
    have hstep : MulticlassStatScores.maxByFold i best (v :: rest) =
        MulticlassStatScores.maxByFold (i + 1) (MulticlassStatScores.maxByStep best i v) rest := rfl
    have hb2 : best.2 ≤ (MulticlassStatScores.maxByStep best i v).2 := by
      unfold MulticlassStatScores.maxByStep
      split
      · exact le_refl _
      · exact le_of_not_lt (by assumption)
    have hv2 : v ≤ (MulticlassStatScores.maxByStep best i v).2 := by
      unfold MulticlassStatScores.maxByStep
      split
      · exact le_of_lt (by assumption)
      · exact le_refl _
    rw [hstep]
    refine ⟨hb2.trans ih1, ?_, ?_, ?_⟩
    · intro k hk
      match k with
      | 0 => simpa using hv2.trans ih1
      | j + 1 =>
        simp only [List.getD_cons_succ]
        exact ih2 j (by simpa using hk)
    · rcases ih3 with heq | ⟨k, hk, h1, h2⟩
      · rw [heq]
        unfold MulticlassStatScores.maxByStep
        split
        · exact Or.inl rfl
        · exact Or.inr ⟨0, by simp, by simp, by simp⟩
      · exact Or.inr ⟨k + 1, by simpa using hk, by rw [h1]; omega, by simpa using h2⟩
    · intro k hk hgt
      match k with
      | 0 =>
        simp only [Nat.add_zero] at hgt
        rcases ih3 with heq | ⟨k2, hk2, h1, h2⟩
        · rw [heq] at hgt ⊢
          unfold MulticlassStatScores.maxByStep at hgt ⊢
          by_cases hc : best.2 > v
          · simp only [if_pos hc] at hgt ⊢
            simpa using lt_of_lt_of_le hc (by simpa [MulticlassStatScores.maxByStep, if_pos hc] using ih1)
          · simp only [if_neg hc] at hgt
            omega
        · rw [h1] at hgt; omega
      | j + 1 =>
        simp only [List.getD_cons_succ]
        exact ih4 j (by simpa using hk) (by omega)

/-- The argmax of a nonempty row is a valid index, attains the maximum,
and is the last index attaining it. -/
theorem predictionIdx_lastArgmax (l : List ℚ) (h : l ≠ []) :
    MulticlassStatScores.predictionIdx l < l.length ∧
    (∀ k, k < l.length →
      l.getD k 0 ≤ l.getD (MulticlassStatScores.predictionIdx l) 0) ∧
    (∀ k, k < l.length →
      l.getD k 0 = l.getD (MulticlassStatScores.predictionIdx l) 0 →
      k ≤ MulticlassStatScores.predictionIdx l) := by
  match l, h with
  | v :: rest, _ =>
    obtain ⟨h1, h2, h3, h4⟩ := maxByFold_spec rest 1 (0, v)
    have hidx : MulticlassStatScores.predictionIdx (v :: rest) =
        (MulticlassStatScores.maxByFold 1 (0, v) rest).1 := rfl
    have hval : (v :: rest).getD (MulticlassStatScores.maxByFold 1 (0, v) rest).1 0 =
        (MulticlassStatScores.maxByFold 1 (0, v) rest).2 := by
      rcases h3 with heq | ⟨k, hk, ha, hb⟩
      · rw [heq]
        simp
      · rw [ha, hb, Nat.add_comm 1 k]
        simp
    have hlt : (MulticlassStatScores.maxByFold 1 (0, v) rest).1 < (v :: rest).length := by
      rcases h3 with heq | ⟨k, hk, ha, hb⟩
      · rw [heq]; simp
      · rw [ha]; simp; omega
    rw [hidx]
    refine ⟨hlt, ?_, ?_⟩
    · intro k hk
      rw [hval]
      match k with
      | 0 => simpa using h1
      | j + 1 =>
        simp only [List.getD_cons_succ]
        exact h2 j (by simpa using hk)
    · intro k hk heqv
      by_contra hgt
      push_neg at hgt
      rw [hval] at heqv
      match k with
      | 0 => omega
      | j + 1 =>
        have := h4 j (by simpa using hk) (by omega)
        simp only [List.getD_cons_succ] at heqv
        rw [heqv] at this
        exact absurd this (lt_irrefl _)

/-- The guarded Macro loop accumulates exactly the sum and the count of
the per-class ratios over classes with non-zero denominator. -/
theorem guardedMeanLoop_eq (pairs : List (ℕ × ℕ)) : ∀ (sum : ℚ) (count : ℕ),
    guardedMeanLoop pairs sum count =
      (sum + ((pairs.filter (fun x => x.2 ≠ 0)).map
          (fun x => (x.1 : ℚ) / (x.2 : ℚ))).sum,
        count + (pairs.filter (fun x => x.2 ≠ 0)).length) := by
  induction pairs with
  | nil => intro sum count; simp [guardedMeanLoop]
  | cons nd rest ih =>
    intro sum count
    obtain ⟨num, den⟩ := nd
    by_cases hd : den = 0
    · subst hd
      simp [guardedMeanLoop, List.filter_cons, ih]
    · have hpos : den > 0 := Nat.pos_of_ne_zero hd
      simp only [guardedMeanLoop, if_pos hpos, ih, List.filter_cons]
      simp [hd, add_assoc]
      omega

/-- The guarded Macro loop followed by the count test and final division
is exactly the spec-side exclusion mean. -/
theorem guardedMean_eq_spec (pairs : List (ℕ × ℕ)) :
    (if (guardedMeanLoop pairs 0 0).2 = 0 then (none : Option FQ)
      else some (some ((guardedMeanLoop pairs 0 0).1 /
        ((guardedMeanLoop pairs 0 0).2 : ℚ)))) =
      Option.map some (specMacroMean pairs) := by
  rw [guardedMeanLoop_eq]
  simp only [zero_add, specMacroMean]
  split
  · simp_all
  · simp_all

/-- A `NaN` accumulator stays `NaN` through the Jaccard sum loop. -/
theorem jaccardSumLoop_none (triples : List (ℕ × ℕ × ℕ)) :
    jaccardSumLoop triples none = none := by
  induction triples with
  | nil => rfl
  | cons t rest ih =>
    obtain ⟨tp, fp, fn⟩ := t
    simpa [jaccardSumLoop, fDiv] using ih

/-- A class with zero `tp+fp+fn` makes the unguarded Jaccard sum `NaN`. -/
theorem jaccardSumLoop_poisoned (triples : List (ℕ × ℕ × ℕ)) :
    ∀ acc : FQ, (∃ t ∈ triples, t.1 + t.2.1 + t.2.2 = 0) →
      jaccardSumLoop triples acc = none := by
  induction triples with
  | nil => intro acc h; simp at h
  | cons t rest ih =>
    intro acc h
    obtain ⟨tp, fp, fn⟩ := t
    rcases h with ⟨t2, ht2, hz⟩
    rcases List.mem_cons.mp ht2 with rfl | hmem
    · simp only at hz
      have : fDiv (some (tp : ℚ)) (some ((tp + fp + fn : ℕ) : ℚ)) = none := by
        simp [fDiv, hz]
      rw [jaccardSumLoop, this, fAdd_none_right]
      exact jaccardSumLoop_none rest
    · exact ih _ ⟨t2, hmem, hz⟩

/-! ## Claim theorems -/

unseal Rat.add Rat.sub Rat.mul Rat.inv in
/-- Claim C1, counterexample: a per-sample validation failure does NOT
leave the accumulators unmodified.  `BinaryStatScores::update` on
predictions `[0.8, 2.0]`, targets `[1, 1]` fails on the second sample but
keeps the increments of the first sample; and `BinaryAccuracy::update` on
predictions `[2]`, targets `[0]` fails on the very first sample yet has
already added the batch length to `total`. -/
theorem c1_counterexample :
    ((BinaryStatScores.update bssFresh [4/5, 2] [1, 1]).2 ≠ none ∧
      (BinaryStatScores.update bssFresh [4/5, 2] [1, 1]).1 ≠ bssFresh) ∧
    ((BinaryAccuracy.update { correct := 0, total := 0 } [2] [0]).2 ≠ none ∧
      (BinaryAccuracy.update { correct := 0, total := 0 } [2] [0]).1 ≠
        { correct := 0, total := 0 }) := by
  decide

unseal Rat.add Rat.sub Rat.mul Rat.inv in
/-- Claim C1 as amended: only a LengthMismatch failure (checked before any
mutation) leaves the accumulator unmodified; per-sample validation
failures are not all-or-nothing — there are failing updates of both
`BinaryStatScores` and `BinaryAccuracy` that return an error yet leave
the accumulator changed (the valid prefix of the batch stays applied, and
`BinaryAccuracy` adds the full batch length to `total` before
validating). -/
theorem c1_amended_atomicity :
    (∀ (s : BinaryStatScores) (predictions : List ℚ) (targets : List ℕ),
      predictions.length ≠ targets.length →
      BinaryStatScores.update s predictions targets =
        (s, some (MetricError.lengthMismatch predictions.length targets.length))) ∧
    (∀ (a : BinaryAccuracy) (predictions targets : List ℕ),
      predictions.length ≠ targets.length →
      BinaryAccuracy.update a predictions targets =
        (a, some (MetricError.lengthMismatch predictions.length targets.length))) ∧
    (∃ (s2 : BinaryStatScores) (e : MetricError),
      BinaryStatScores.update bssFresh [4/5, 2] [1, 1] = (s2, some e) ∧
        s2 ≠ bssFresh) ∧
    (∃ (a2 : BinaryAccuracy) (e : MetricError),
      BinaryAccuracy.update { correct := 0, total := 0 } [2] [0] =
        (a2, some e) ∧ a2 ≠ { correct := 0, total := 0 }) := by
  refine ⟨?_, ?_, ?_, ?_⟩
  · intro s predictions targets h
    simp [BinaryStatScores.update, h]
  · intro a predictions targets h
    simp [BinaryAccuracy.update, h]
  · exact ⟨{ true_positive := 1, false_positive := 0, false_negative := 0
             true_negative := 0, total := 1, threshold := 1/2 },
      MetricError.incompatibleInput, by decide, by decide⟩
  · exact ⟨{ correct := 0, total := 1 }, MetricError.incompatibleInput,
      by decide, by decide⟩

unseal Rat.add Rat.sub Rat.mul Rat.inv in
/-- Witness for C1: the LengthMismatch branch applied at a concrete
mismatched batch. -/
theorem c1_witness :
    (([4/5, 3/5] : List ℚ).length ≠ ([1] : List ℕ).length) ∧
    BinaryStatScores.update bssFresh [4/5, 3/5] [1] =
      (bssFresh, some (MetricError.lengthMismatch 2 1)) ∧
    BinaryAccuracy.update { correct := 0, total := 0 } [0] [] =
      ({ correct := 0, total := 0 }, some (MetricError.lengthMismatch 1 0)) :=
  ⟨by decide, c1_amended_atomicity.1 bssFresh [4/5, 3/5] [1] (by decide),
    c1_amended_atomicity.2.1 { correct := 0, total := 0 } [0] [] (by decide)⟩

unseal Rat.add Rat.sub Rat.mul Rat.inv in
/-- Claim C2, counterexample: on the tied row `[0.5, 0.5]` the argmax used
by `MulticlassStatScores::update` is index `1`, not the first maximal
index `0`; accordingly the update on target `0` records a false negative
for class `0` and a false positive for class `1` instead of a true
positive for class `0`. -/
theorem c2_counterexample :
    ¬ (MulticlassStatScores.predictionIdx [(1 : ℚ)/2, 1/2] = 0) ∧
    c2State.true_positive = [0, 0] ∧
    c2State.false_negative = [1, 0] ∧
    c2State.false_positive = [0, 1] := by
  decide

unseal Rat.add Rat.sub Rat.mul Rat.inv in
/-- Claim C2 as amended: for every prediction row the class picked by the
`max_by` argmax is a valid index attaining the row maximum, and it is the
LAST index (greatest index, in iteration order) at which the maximum
occurs — `Iterator::max_by` resolves ties to the later element. -/
theorem c2_amended_ties_last (l : List ℚ) (h : l ≠ []) :
    MulticlassStatScores.predictionIdx l < l.length ∧
    (∀ k, k < l.length →
      l.getD k 0 ≤ l.getD (MulticlassStatScores.predictionIdx l) 0) ∧
    (∀ k, k < l.length →
      l.getD k 0 = l.getD (MulticlassStatScores.predictionIdx l) 0 →
      k ≤ MulticlassStatScores.predictionIdx l) :=
  predictionIdx_lastArgmax l h

/-- Witness for C2 at the concrete row `[1/3, 2/3]`. -/
theorem c2_witness :
    (([(1 : ℚ)/3, 2/3] : List ℚ) ≠ []) ∧
    MulticlassStatScores.predictionIdx [(1 : ℚ)/3, 2/3] < 2 := by
  have h := c2_amended_ties_last [(1 : ℚ)/3, 2/3] (by simp)
  exact ⟨by simp, by simpa using h.1⟩

unseal Rat.add Rat.sub Rat.mul Rat.inv in
/-- Claim C3 (code bug evaluation): in Binned mode, after accumulating a
single positive sample (zero negatives), `compute` returns `Some(NaN)`
(`some none` in this model) instead of `None` — the guard tests
`total_pos == 0.0 && total_neg == 0.0` instead of the disjunction, and
the sweep then divides `0.0` by `total_pos * total_neg == 0.0`.  Exact
mode on the same data returns `None` as the claim states. -/
theorem c3_binned_nan :
    BinaryAuroc.update (AurocMode.binned 2 [0, 0] [0, 0]) [1/5] [1] =
      some (AurocMode.binned 2 [1, 0] [0, 0], none) ∧
    BinaryAuroc.compute (AurocMode.binned 2 [1, 0] [0, 0]) = some none ∧
    BinaryAuroc.compute (AurocMode.binned 2 [1, 0] [0, 0]) ≠ none ∧
    BinaryAuroc.compute (AurocMode.exact [(1/5, true)]) = none := by
  decide

unseal Rat.add Rat.sub Rat.mul Rat.inv in
/-- Claim C4, counterexample: after one sample predicted and labelled as
class `0` of two, class `1` has `tp+fp+fn = 0`; the exclusion policy of
the claim would give Macro Jaccard `Some(1.0)` (mean over the single
defined class), but `MulticlassJaccardIndex::compute` includes class `1`
and returns `Some(NaN)` (`some none` here). -/
theorem c4_counterexample :
    mcJaccardCompute c4State = some none ∧
    specMacroMean (jaccardPairs c4State) = some 1 ∧
    mcJaccardCompute c4State ≠ Option.map some (specMacroMean (jaccardPairs c4State)) := by
  decide

/-- Claim C4 as amended: `MulticlassPrecision` and `MulticlassF1Score`
under Macro averaging do exclude zero-denominator classes and average
over the count of defined classes (they agree with the spec-modelled
exclusion mean); `MulticlassJaccardIndex` under Macro averaging does NOT
exclude them — whenever some class has `tp+fp+fn = 0` its compute returns
`Some(NaN)` (`some none`), the per-class `0/0` poisoning the sum that is
divided by `num_classes`. -/
theorem c4_amended_averaging :
    (∀ s : MulticlassStatScores, s.total ≠ 0 →
      mcPrecisionCompute s = Option.map some (specMacroMean (precisionPairs s))) ∧
    (∀ s : MulticlassStatScores, s.total ≠ 0 →
      mcF1Compute s = Option.map some (specMacroMean (f1Pairs s))) ∧
    (∀ s : MulticlassStatScores, s.total ≠ 0 →
      (∃ t ∈ jaccardTriples s, t.1 + t.2.1 + t.2.2 = 0) →
      mcJaccardCompute s = some none) := by
  refine ⟨?_, ?_, ?_⟩
  · intro s h
    simp only [mcPrecisionCompute, if_neg h]
    exact guardedMean_eq_spec (precisionPairs s)
  · intro s h
    simp only [mcF1Compute, if_neg h]
    exact guardedMean_eq_spec (f1Pairs s)
  · intro s h hex
    simp only [mcJaccardCompute, if_neg h,
      jaccardSumLoop_poisoned (jaccardTriples s) (some 0) hex]
    rfl

unseal Rat.add Rat.sub Rat.mul Rat.inv in
/-- Witness for C4: the three parts applied at the concrete state
`c4State` (total `1`, class `1` undefined). -/
theorem c4_witness :
    (c4State.total ≠ 0) ∧
    mcPrecisionCompute c4State = Option.map some (specMacroMean (precisionPairs c4State)) ∧
    mcF1Compute c4State = Option.map some (specMacroMean (f1Pairs c4State)) ∧
    (∃ t ∈ jaccardTriples c4State, t.1 + t.2.1 + t.2.2 = 0) ∧
    mcJaccardCompute c4State = some none :=
  ⟨by decide, c4_amended_averaging.1 c4State (by decide),
    c4_amended_averaging.2.1 c4State (by decide), by decide,
    c4_amended_averaging.2.2 c4State (by decide) (by decide)⟩

unseal Rat.add Rat.sub Rat.mul Rat.inv in
/-- Claim C5, counterexample: the spec scenario is miscounted — on
predictions `[0.8, 0.6, 0.3, 0.1]`, targets `[1, 0, 1, 0]`, threshold
`0.5`, the second sample (`0.6 > 0.5` against target `0`) is a FALSE
positive, so `fp = 1`, `tn = 1` and precision is `0.5`, not the claimed
`fp = 0`, `tn = 2`, precision `1.0`. -/
theorem c5_counterexample :
    ¬ (c5State.true_positive = 1 ∧ c5State.false_positive = 0 ∧
      c5State.false_negative = 1 ∧ c5State.true_negative = 2 ∧
      binaryPrecisionCompute c5State = some (some 1) ∧
      binaryRecallCompute c5State = some (some (1/2))) := by
  decide

unseal Rat.add Rat.sub Rat.mul Rat.inv in
/-- Claim C5 as amended: that batch yields `tp=1, fp=1, fn=1, tn=1`, with
`BinaryPrecision` computing `Some(0.5)` and `BinaryRecall` computing
`Some(0.5)`. -/
theorem c5_amended_scenario :
    c5State.true_positive = 1 ∧ c5State.false_positive = 1 ∧
    c5State.false_negative = 1 ∧ c5State.true_negative = 1 ∧
    binaryPrecisionCompute c5State = some (some (1/2)) ∧
    binaryRecallCompute c5State = some (some (1/2)) := by
  decide

/-- Claim C6: every `BinaryStatScores` state reachable from construction
through successful updates and resets, in any interleaving, satisfies
`true_positive + false_positive + false_negative + true_negative = total`. -/
theorem c6_invariant (s : BinaryStatScores) (h : BssReachable s) :
    s.true_positive + s.false_positive + s.false_negative + s.true_negative =
      s.total := by
  induction h with
  | new threshold s2 hnew =>
    unfold BinaryStatScores.new at hnew
    cases hv : verifyRange threshold 0 1 with
    | some e => rw [hv] at hnew; exact absurd hnew (by simp)
    | none =>
      rw [hv] at hnew
      obtain rfl : _ = s2 := Option.some.inj hnew
      rfl
  | update s2 predictions targets s3 hr hup ih =>
    unfold BinaryStatScores.update at hup
    by_cases hl : predictions.length ≠ targets.length
    · rw [if_pos hl] at hup
      exact absurd (congrArg Prod.snd hup) (by simp)
    · rw [if_neg hl] at hup
      have hloop := updateLoop_invariant (predictions.zip targets) s2 ih
      rw [hup] at hloop
      exact hloop
  | reset s2 hr ih => rfl

unseal Rat.add Rat.sub Rat.mul Rat.inv in
/-- Witness for C6: the invariant theorem applied to the state reached by
one successful one-sample update from a freshly constructed accumulator. -/
theorem c6_witness :
    BinaryStatScores.new (1/2) = some bssFresh ∧
    BinaryStatScores.update bssFresh [4/5] [1] = (c6Snapshot, none) ∧
    c6Snapshot.true_positive + c6Snapshot.false_positive +
      c6Snapshot.false_negative + c6Snapshot.true_negative = c6Snapshot.total := by
  refine ⟨by decide, by decide, ?_⟩
  exact c6_invariant c6Snapshot
    (BssReachable.update bssFresh [4/5] [1] c6Snapshot
      (BssReachable.new (1/2) bssFresh (by decide)) (by decide))

/-- Claim C7: for every state of every core classification metric,
`reset` followed by `compute` yields `None` — for the
`BinaryStatScores`-derived metrics (precision, recall, F1, Jaccard),
`BinaryAccuracy`, `MulticlassAccuracy`, and `BinaryAuroc` in both Exact
and Binned mode. -/
theorem c7_reset_then_compute_none :
    (∀ s : BinaryStatScores,
      binaryPrecisionCompute s.reset = none ∧
      binaryRecallCompute s.reset = none ∧
      binaryF1Compute s.reset = none ∧
      binaryJaccardCompute s.reset = none) ∧
    (∀ a : BinaryAccuracy, a.reset.compute = none) ∧
    (∀ m : MulticlassAccuracy, m.reset.compute = none) ∧
    (∀ m : AurocMode, BinaryAuroc.compute (BinaryAuroc.reset m) = none) := by
  refine ⟨?_, ?_, ?_, ?_⟩
  · intro s
    refine ⟨?_, ?_, ?_, ?_⟩ <;>
      simp [BinaryStatScores.reset, binaryPrecisionCompute, binaryRecallCompute,
        binaryF1Compute, binaryJaccardCompute]
  · intro a
    simp [BinaryAccuracy.reset, BinaryAccuracy.compute]
  · intro m
    simp [MulticlassAccuracy.reset, MulticlassAccuracy.compute]
  · intro m
    cases m with
    | exact samples => rfl
    | binned bins pos_hist neg_hist =>
      simp [BinaryAuroc.reset, BinaryAuroc.compute, sum_map_zero]

unseal Rat.add Rat.sub Rat.mul Rat.inv in
/-- Claim C8: on the single Exact-mode batch with predictions
`[0.9, 0.8, 0.7, 0.4, 0.2]` and targets `[1, 1, 0, 0, 1]`, the
trapezoidal sweep accumulates area `4`, there are `3` positives and `2`
negatives, and `compute` returns `Some(2/3) = Some(4 / (3 * 2))`. -/
theorem c8_exact_scenario :
    BinaryAuroc.update (AurocMode.exact []) [9/10, 4/5, 7/10, 2/5, 1/5]
      [1, 1, 0, 0, 1] =
      some (AurocMode.exact
        [(9/10, true), (4/5, true), (7/10, false), (2/5, false), (1/5, true)],
        none) ∧
    BinaryAuroc.sweepLoop 5
      (BinaryAuroc.sortDesc
        [(9/10, true), (4/5, true), (7/10, false), (2/5, false), (1/5, true)])
      0 0 0 = 4 ∧
    ((BinaryAuroc.sortDesc
      [(9/10, true), (4/5, true), (7/10, false), (2/5, false), (1/5, true)]).filter
        (fun x => x.2)).length = 3 ∧
    (BinaryAuroc.sortDesc
      [(9/10, true), (4/5, true), (7/10, false), (2/5, false), (1/5, true)]).length -
      ((BinaryAuroc.sortDesc
        [(9/10, true), (4/5, true), (7/10, false), (2/5, false), (1/5, true)]).filter
          (fun x => x.2)).length = 2 ∧
    BinaryAuroc.compute (AurocMode.exact
      [(9/10, true), (4/5, true), (7/10, false), (2/5, false), (1/5, true)]) =
      some (some (2/3)) := by
  decide

/-- Claim C9: `BinaryAuroc::new(1)` panics (no accumulator is
constructed); `new(0)` yields Exact mode with an empty sample list; and
for every `bins >= 2`, `new(bins)` yields Binned mode with both
histograms of length `bins`, all zero. -/
theorem c9_new_bins :
    BinaryAuroc.new 1 = none ∧
    BinaryAuroc.new 0 = some (AurocMode.exact []) ∧
    ∀ bins, 2 ≤ bins → BinaryAuroc.new bins =
      some (AurocMode.binned bins (List.replicate bins 0)
        (List.replicate bins 0)) := by
  refine ⟨rfl, rfl, ?_⟩
  intro bins hb
  match bins, hb with
  | n + 2, _ => rfl

/-- Witness for C9 at `bins = 5`. -/
theorem c9_witness :
    2 ≤ 5 ∧ BinaryAuroc.new 5 =
      some (AurocMode.binned 5 (List.replicate 5 0) (List.replicate 5 0)) :=
  ⟨by decide, c9_new_bins.2.2 5 (by decide)⟩

/-- Claim C10: for every prediction `p` with `0 <= p <= 1` and every
`bins >= 2`, the Binned-mode bucket index `round(p * (bins - 1))` is
strictly below `bins`, so the histogram increments in
`BinaryAuroc::update` never index out of bounds. -/
theorem c10_bin_index_bound (prediction : ℚ) (bins : ℕ)
    (h0 : 0 ≤ prediction) (h1 : prediction ≤ 1) (hb : 2 ≤ bins) :
    BinaryAuroc.binIndex prediction bins < bins := by
  unfold BinaryAuroc.binIndex BinaryAuroc.roundRust
  have hc : (0 : ℚ) ≤ ((bins - 1 : ℕ) : ℚ) := Nat.cast_nonneg _
  have hx0 : 0 ≤ prediction * ((bins - 1 : ℕ) : ℚ) := mul_nonneg h0 hc
  rw [if_pos hx0]
  have hxle : prediction * ((bins - 1 : ℕ) : ℚ) ≤ ((bins - 1 : ℕ) : ℚ) := by
    calc prediction * ((bins - 1 : ℕ) : ℚ) ≤ 1 * ((bins - 1 : ℕ) : ℚ) :=
          mul_le_mul_of_nonneg_right h1 hc
    _ = ((bins - 1 : ℕ) : ℚ) := one_mul _
  have hcast : ((bins - 1 : ℕ) : ℚ) = (bins : ℚ) - 1 := by
    have h1b : 1 ≤ bins := by omega
    rw [Nat.cast_sub h1b, Nat.cast_one]
  have hfl : ⌊prediction * ((bins - 1 : ℕ) : ℚ) + 1/2⌋ < (bins : ℤ) := by
    rw [Int.floor_lt, hcast]
    rw [hcast] at hxle
    push_cast
    linarith
  omega

unseal Rat.add Rat.sub Rat.mul Rat.inv in
/-- Witness for C10 at `p = 3/4`, `bins = 5`. -/
theorem c10_witness :
    (0 : ℚ) ≤ 3/4 ∧ (3/4 : ℚ) ≤ 1 ∧ 2 ≤ 5 ∧
      BinaryAuroc.binIndex (3/4) 5 < 5 :=
  ⟨by decide, by decide, by decide,
    c10_bin_index_bound (3/4) 5 (by decide) (by decide) (by decide)⟩
